import Mathlib

/-!
Verification of the FramePerfect AI frame-curation pipeline.

The definitions below are a shallow embedding of the TypeScript source:
`callWithRetry`, `analyzeFrameWithGemini` and `enhanceFrameWithGemini`
(services/geminiService.ts), the orchestration handlers `processFrameAI`,
`handleEnhanceSelection`, `handleBatchEnhance` and the sampling loop of
`startExtraction` (App.tsx), and `exportProjectToZip`
(services/exportService.ts).  JavaScript numbers are modelled as `ℚ`,
JavaScript `undefined` as `Option.none`, and JavaScript truthiness
(`x || d`, `!!x`) by explicit helpers.  Asynchronous calls are modelled by
passing the awaited outcome of each call as an explicit argument.
-/

namespace FramePerfect

/-- A JavaScript error object as inspected by `callWithRetry`:
`error?.status`, `error?.code`, and whether `error?.message` contains
the substring "429". -/
structure JsError where
  status : Option Nat
  code : Option Nat
  msgHas429 : Bool
  deriving DecidableEq

/-- From geminiService.ts: `error?.status === 429 || error?.code === 429 || error?.message?.includes('429')`. -/
def isRateLimit (e : JsError) : Bool :=
  e.status == some 429 || e.code == some 429 || e.msgHas429

/-- From geminiService.ts: `error?.status === 503 || error?.code === 503`. -/
def isServerOverload (e : JsError) : Bool :=
  e.status == some 503 || e.code == some 503

/-- `callWithRetry(fn, retries = 3, delay = 2000)` from geminiService.ts.
`fn` is indexed by the attempt number; the second component of the result
collects the backoff waits (`setTimeout` durations) actually performed. -/
def callWithRetry {α : Type} (fn : Nat → Except JsError α) :
    Nat → Nat → Nat → Except JsError α × List Nat
  | attempt, retries, delay =>
    match fn attempt with
    | .ok a => (.ok a, [])
    | .error e =>
      match retries with
      | 0 => (.error e, [])
      | r + 1 =>
        if isRateLimit e || isServerOverload e then
          let p := callWithRetry fn (attempt + 1) r (delay * 2)
          (p.1, delay :: p.2)
        else
          (.error e, [])

/-- The `AIAnalysis` record as it actually exists at runtime: the source
casts `json.quality as FrameQuality` and `json.shotType as ShotType`
without validation, so a missing field leaks through as `undefined`
(modelled as `none`).  Enum values are modelled by their string values. -/
structure AIAnalysis where
  quality : Option String
  qualityReason : Option String
  people : List String
  shotType : Option String
  tags : List String
  compositionScore : ℚ
  technicalAdvice : String
  subjectId : Option String
  deriving DecidableEq

/-- The degraded fallback returned by the catch branch of
`analyzeFrameWithGemini`. -/
def fallbackAnalysis : AIAnalysis :=
  { quality := some "Fair"
    qualityReason := some "AI Analysis Failed"
    people := []
    shotType := some "Unknown"
    tags := []
    compositionScore := 0
    technicalAdvice := "Retry analysis"
    subjectId := none }

/-- A parsed JSON analysis response; every field may be absent. -/
structure RawAnalysis where
  quality : Option String
  qualityReason : Option String
  people : Option (List String)
  shotType : Option String
  tags : Option (List String)
  compositionScore : Option ℚ
  technicalAdvice : Option String
  subjectId : Option String
  deriving DecidableEq

/-- Outcome of one attempt of the underlying generateContent capability:
it can throw, return a falsy `response.text`, return text that fails
`JSON.parse`, or return a parsed JSON object. -/
inductive CapOutcome where
  | throwErr (e : JsError)
  | noText
  | badJson
  | json (j : RawAnalysis)
  deriving DecidableEq

/-- JavaScript `x || d` for an optional string (both `undefined` and the
empty string are falsy). -/
def jsOrStr (x : Option String) (d : String) : String :=
  match x with
  | some s => if s = "" then d else s
  | none => d

/-- JavaScript `x || d` for an optional number (both `undefined` and `0`
are falsy). -/
def jsOrNum (x : Option ℚ) (d : ℚ) : ℚ :=
  match x with
  | some v => if v = 0 then d else v
  | none => d

/-- JavaScript `x || undefined` for an optional string. -/
def jsOrUndef (x : Option String) : Option String :=
  match x with
  | some s => if s = "" then none else some s
  | none => none

/-- JavaScript `!!x` for an optional string. -/
def jsTruthy (x : Option String) : Bool :=
  match x with
  | some s => s != ""
  | none => false

/-- JavaScript `Math.max` on two numbers. -/
def jsMax (a b : ℚ) : ℚ :=
  if a < b then b else a

instance {ε α : Type} [DecidableEq ε] [DecidableEq α] : DecidableEq (Except ε α) := by
  intro a b
  cases a with
  | ok x =>
    cases b with
    | ok y =>
      exact if h : x = y then .isTrue (by rw [h]) else .isFalse (by intro hc; cases hc; exact h rfl)
    | error e => exact .isFalse (by intro hc; cases hc)
  | error e =>
    cases b with
    | ok y => exact .isFalse (by intro hc; cases hc)
    | error e2 =>
      exact if h : e = e2 then .isTrue (by rw [h]) else .isFalse (by intro hc; cases hc; exact h rfl)

/-- One attempt of the function passed by `analyzeFrameWithGemini` to
`callWithRetry`: the inner try/catch re-throws only when
`error.status === 429`; every other failure (thrown error, empty text,
parse error) resolves to the degraded fallback, and a parsed JSON object
is turned into an `AIAnalysis` by unvalidated casts with `||` defaults. -/
def analyzeAttempt (o : CapOutcome) : Except JsError AIAnalysis :=
  match o with
  | .throwErr e => if e.status = some 429 then .error e else .ok fallbackAnalysis
  | .noText => .ok fallbackAnalysis
  | .badJson => .ok fallbackAnalysis
  | .json j =>
    .ok { quality := j.quality
          qualityReason := j.qualityReason
          people := j.people.getD []
          shotType := j.shotType
          tags := j.tags.getD []
          compositionScore := jsOrNum j.compositionScore 5
          technicalAdvice := jsOrStr j.technicalAdvice "No advice available"
          subjectId := j.subjectId }

/-- `analyzeFrameWithGemini` from geminiService.ts, as a function of the
capability's per-attempt outcomes; also returns the backoff waits. -/
def analyzeFrameWithGemini (cap : Nat → CapOutcome) :
    Except JsError AIAnalysis × List Nat :=
  callWithRetry (fun n => analyzeAttempt (cap n)) 0 3 2000

/-- The `VideoFrame` record from types.ts. -/
structure VideoFrame where
  id : String
  timestamp : ℚ
  imageUrl : String
  analysis : Option AIAnalysis
  isSelected : Bool
  isProcessing : Bool
  enhancedUrl : Option String
  isEnhancing : Bool
  appliedEnhancements : List String
  deriving DecidableEq

/-- The id-keyed store update used throughout App.tsx:
`frames.map(f => f.id === id ? patch(f) : f)`. -/
def updateById (frames : List VideoFrame) (i : String)
    (patch : VideoFrame → VideoFrame) : List VideoFrame :=
  frames.map (fun f => if f.id = i then patch f else f)

/-- Look a frame up by id (first match in insertion order). -/
def findById (frames : List VideoFrame) (i : String) : Option VideoFrame :=
  frames.find? (fun f => f.id == i)

/-- Success-path patch of `processFrameAI`: write the verdict, clear
`isProcessing`, set `isSelected` to whether the quality is Excellent. -/
def analyzeOkPatch (result : AIAnalysis) (f : VideoFrame) : VideoFrame :=
  { f with analysis := some result
           isProcessing := false
           isSelected := decide (result.quality = some "Excellent") }

/-- Catch-path patch of `processFrameAI`: clear `isProcessing` only. -/
def clearProcessingPatch (f : VideoFrame) : VideoFrame :=
  { f with isProcessing := false }

/-- The `isEnhancing: true` patch written before an enhancement call. -/
def setEnhancingPatch (f : VideoFrame) : VideoFrame :=
  { f with isEnhancing := true }

/-- The `isEnhancing: false` patch written when an enhancement call throws. -/
def clearEnhancingPatch (f : VideoFrame) : VideoFrame :=
  { f with isEnhancing := false }

/-- `processFrameAI` from App.tsx: on a resolved analysis, write the
verdict, clear `isProcessing`, and set `isSelected` to whether the
quality is Excellent; on a rejected promise, clear `isProcessing` only. -/
def processFrameAI (cap : Nat → CapOutcome) (frame : VideoFrame)
    (frames : List VideoFrame) : List VideoFrame :=
  match (analyzeFrameWithGemini cap).1 with
  | .ok result => updateById frames frame.id (analyzeOkPatch result)
  | .error _ => updateById frames frame.id clearProcessingPatch

/-- Success-path patch of `handleEnhanceSelection` in App.tsx. -/
def enhanceSuccessPatch (res : Option String) (types : List String)
    (f : VideoFrame) : VideoFrame :=
  { f with isEnhancing := false
           enhancedUrl := jsOrUndef res
           isSelected := true
           appliedEnhancements := f.appliedEnhancements ++ types
           analysis := f.analysis.map (fun a => { a with quality := some "Excellent" }) }

/-- `handleEnhanceSelection` from App.tsx, as a function of the awaited
outcome of `enhanceFrameWithGemini` (`.ok none` is the "no image
produced" null result, which the source does not treat as a failure).
The first `updateById` is the `isEnhancing: true` write performed before
the call. -/
def handleEnhanceSelection (outcome : Except JsError (Option String))
    (frame : VideoFrame) (types : List String)
    (frames : List VideoFrame) : List VideoFrame :=
  match outcome with
  | .ok res =>
    updateById (updateById frames frame.id setEnhancingPatch)
      frame.id (enhanceSuccessPatch res types)
  | .error _ =>
    updateById (updateById frames frame.id setEnhancingPatch)
      frame.id clearEnhancingPatch

/-- Success-path patch of the batch loop in `handleBatchEnhance`. -/
def batchSuccessPatch (res : Option String) (etype : String)
    (f : VideoFrame) : VideoFrame :=
  { f with isEnhancing := false
           enhancedUrl := jsOrUndef res
           analysis := f.analysis.map (fun a => { a with quality := some "Excellent" })
           appliedEnhancements := f.appliedEnhancements ++ [etype] }

/-- The sequential `for (const frame of selectedFrames)` loop of
`handleBatchEnhance`: a target without an analysis is skipped
(`continue`), otherwise the store is patched by id according to the
awaited outcome of that frame's enhancement call. -/
def batchLoop (etype : String)
    (outcome : VideoFrame → Except JsError (Option String)) :
    List VideoFrame → List VideoFrame → List VideoFrame
  | [], frames => frames
  | t :: rest, frames =>
    match t.analysis with
    | none => batchLoop etype outcome rest frames
    | some _ =>
      match outcome t with
      | .ok res =>
        batchLoop etype outcome rest (updateById frames t.id (batchSuccessPatch res etype))
      | .error _ =>
        batchLoop etype outcome rest (updateById frames t.id clearEnhancingPatch)

/-- The snapshot `selectedFrames` that `handleBatchEnhance` iterates. -/
def batchTargets (frames : List VideoFrame) : List VideoFrame :=
  frames.filter (fun f => f.isSelected)

/-- Batch start phase of `handleBatchEnhance`: mark every targeted
(selected) frame as enhancing (`targetIds.includes(f.id)`). -/
def batchStart (frames : List VideoFrame) : List VideoFrame :=
  frames.map (fun f =>
    if ((batchTargets frames).map (fun g => g.id)).contains f.id
    then setEnhancingPatch f else f)

/-- `handleBatchEnhance` from App.tsx. -/
def handleBatchEnhance (etype : String)
    (outcome : VideoFrame → Except JsError (Option String))
    (frames : List VideoFrame) : List VideoFrame :=
  batchLoop etype outcome (batchTargets frames) (batchStart frames)

/-- Scan settings from types.ts. -/
structure ScanSettings where
  range : String
  interval : ℚ

/-- Range resolution switch at the top of `startExtraction`. -/
def resolveRange (range : String) (duration : ℚ) : ℚ × ℚ :=
  if range = "first_half" then (0, duration / 2)
  else if range = "second_half" then (duration / 2, duration)
  else if range = "q1" then (0, duration * (1 / 4))
  else if range = "q2" then (duration * (1 / 4), duration * (1 / 2))
  else if range = "q3" then (duration * (1 / 2), duration * (3 / 4))
  else if range = "q4" then (duration * (3 / 4), duration)
  else (0, duration)

/-- The capture loop of `startExtraction`:
`while (currentTime < endTime && count < maxFrames)`, emitting the
current timestamp and stepping by the interval.  The fuel argument is
the remaining iteration budget (`maxFrames - count`). -/
def sampleLoop (endTime step : ℚ) : ℚ → Nat → List ℚ
  | _, 0 => []
  | t, fuel + 1 =>
    if t < endTime then t :: sampleLoop endTime step (t + step) fuel else []

/-- Timestamps captured by `startExtraction` for a given duration and
settings: range resolution, `interval = Math.max(1, settings.interval)`,
hard cap `maxFrames = 50`. -/
def sampleTimestamps (duration : ℚ) (s : ScanSettings) : List ℚ :=
  sampleLoop (resolveRange s.range duration).2 (jsMax 1 s.interval)
    (resolveRange s.range duration).1 50

/-- A JSON value appearing in a manifest entry.  `jsUndefined` stands for a
JavaScript `undefined` stored under the key. -/
inductive MValue where
  | str (s : String)
  | num (q : ℚ)
  | arr (l : List String)
  | boolean (b : Bool)
  | jsUndefined
  deriving DecidableEq

/-- Lift an optional string into a manifest value. -/
def optMStr (x : Option String) : MValue :=
  match x with
  | some s => .str s
  | none => .jsUndefined

/-- Lift an optional number into a manifest value. -/
def optMNum (x : Option ℚ) : MValue :=
  match x with
  | some q => .num q
  | none => .jsUndefined

/-- Lift an optional string list into a manifest value. -/
def optMArr (x : Option (List String)) : MValue :=
  match x with
  | some l => .arr l
  | none => .jsUndefined

/-- Two-digit decimal padding. -/
def pad2 (n : Nat) : String :=
  if n < 10 then "0" ++ toString n else toString n

/-- JavaScript `Number.prototype.toFixed(2)` for the nonnegative
timestamps produced by sampling: round to the nearest hundredth, ties
rounded up. -/
def toFixed2 (q : ℚ) : String :=
  toString ((round (q * 100)).toNat / 100) ++ "." ++ pad2 ((round (q * 100)).toNat % 100)

/-- The prefix strip `imageData.replace(/^data:image\/(png|jpeg|jpg);base64,/, "")`
from exportService.ts. -/
def stripDataUrlPrefix (s : String) : String :=
  if s.startsWith "data:image/png;base64," then s.drop 22
  else if s.startsWith "data:image/jpeg;base64," then s.drop 23
  else if s.startsWith "data:image/jpg;base64," then s.drop 22
  else s

/-- One manifest entry per keeper, with the key names the source actually
writes (`score` and `advice`, not `compositionScore` and
`technicalAdvice`). -/
def manifestEntry (f : VideoFrame) : List (String × MValue) :=
  [("id", .str f.id),
   ("timestamp", .num f.timestamp),
   ("quality", optMStr (f.analysis.bind (fun a => a.quality))),
   ("score", optMNum (f.analysis.map (fun a => a.compositionScore))),
   ("tags", optMArr (f.analysis.map (fun a => a.tags))),
   ("advice", optMStr (f.analysis.map (fun a => a.technicalAdvice))),
   ("people", optMArr (f.analysis.map (fun a => a.people))),
   ("shotType", optMStr (f.analysis.bind (fun a => a.shotType))),
   ("isEnhanced", .boolean (jsTruthy f.enhancedUrl))]

/-- Image file name per keeper:
``frame_${frame.timestamp.toFixed(2)}s_${frame.analysis?.quality || 'ungraded'}.png``. -/
def exportFileName (f : VideoFrame) : String :=
  "frame_" ++ toFixed2 f.timestamp ++ "s_"
    ++ jsOrStr (f.analysis.bind (fun a => a.quality)) "ungraded" ++ ".png"

/-- Image file payload per keeper:
`frame.enhancedUrl || frame.imageUrl`, with the base64 header stripped. -/
def exportFilePayload (f : VideoFrame) : String :=
  stripDataUrlPrefix (jsOrStr f.enhancedUrl f.imageUrl)

/-- The manifest plus image files produced by `exportProjectToZip`. -/
structure ExportBundle where
  manifest : List (List (String × MValue))
  files : List (String × String)
  deriving DecidableEq

/-- `exportProjectToZip` from exportService.ts (the zip-writing and
download mechanics are out of scope; the bundle contents are modelled). -/
def exportProjectToZip (frames : List VideoFrame) : ExportBundle :=
  let keepers := frames.filter (fun f => f.isSelected)
  { manifest := keepers.map (fun f =>
      [("id", MValue.str f.id),
       ("timestamp", MValue.num f.timestamp),
       ("quality", optMStr (f.analysis.bind (fun a => a.quality))),
       ("score", optMNum (f.analysis.map (fun a => a.compositionScore))),
       ("tags", optMArr (f.analysis.map (fun a => a.tags))),
       ("advice", optMStr (f.analysis.map (fun a => a.technicalAdvice))),
       ("people", optMArr (f.analysis.map (fun a => a.people))),
       ("shotType", optMStr (f.analysis.bind (fun a => a.shotType))),
       ("isEnhanced", MValue.boolean (jsTruthy f.enhancedUrl))])
    files := keepers.map (fun f =>
      ("frame_" ++ toFixed2 f.timestamp ++ "s_"
         ++ jsOrStr (f.analysis.bind (fun a => a.quality)) "ungraded" ++ ".png",
       stripDataUrlPrefix (jsOrStr f.enhancedUrl f.imageUrl))) }

/-! Concrete inputs used by counterexamples and witnesses. -/

/-- A well-formed analysis response with quality Good. -/
def goodJson : RawAnalysis :=
  { quality := some "Good", qualityReason := some "ok", people := some [],
    shotType := some "Candid", tags := some ["t"], compositionScore := some 7,
    technicalAdvice := some "Advice.", subjectId := none }

/-- The `AIAnalysis` that `analyzeAttempt` produces from `goodJson`. -/
def goodAnalysis : AIAnalysis :=
  { quality := some "Good", qualityReason := some "ok", people := [],
    shotType := some "Candid", tags := ["t"], compositionScore := 7,
    technicalAdvice := "Advice.", subjectId := none }

/-- A capability that always answers with `goodJson`. -/
def capGood : Nat → CapOutcome := fun _ => .json goodJson

/-- An HTTP 429 (rate limited) error. -/
def err429 : JsError := { status := some 429, code := none, msgHas429 := false }

/-- An HTTP 503 (service overloaded) error. -/
def err503 : JsError := { status := some 503, code := none, msgHas429 := false }

/-- Fails with 429 on attempts 0 and 1, succeeds on attempt 2. -/
def cap429Twice : Nat → CapOutcome :=
  fun n => if n < 2 then .throwErr err429 else .json goodJson

/-- Fails with 503 on attempts 0 and 1, succeeds on attempt 2. -/
def cap503Twice : Nat → CapOutcome :=
  fun n => if n < 2 then .throwErr err503 else .json goodJson

/-- Fails with 429 on every attempt. -/
def cap429Always : Nat → CapOutcome := fun _ => .throwErr err429

/-- A freshly sampled frame that the user has selected while its
analysis is still pending. -/
def pendingFrame : VideoFrame :=
  { id := "f1", timestamp := 0, imageUrl := "img", analysis := none,
    isSelected := true, isProcessing := true, enhancedUrl := none,
    isEnhancing := false, appliedEnhancements := [] }

/-- An analyzed, selected frame holding a previously enhanced image. -/
def enhancedFrame : VideoFrame :=
  { id := "f2", timestamp := 1, imageUrl := "data:image/jpeg;base64,AAA",
    analysis := some goodAnalysis, isSelected := true, isProcessing := false,
    enhancedUrl := some "data:image/png;base64,OLD", isEnhancing := false,
    appliedEnhancements := [] }

/-- A parseable analysis response that is missing the required field
`quality`. -/
def missingQualityJson : RawAnalysis :=
  { quality := none, qualityReason := some "looks fine", people := none,
    shotType := some "Candid", tags := some ["beach"], compositionScore := none,
    technicalAdvice := some "Fix focus.", subjectId := none }

/-- A capability that always answers with `missingQualityJson`. -/
def capMissingQuality : Nat → CapOutcome := fun _ => .json missingQualityJson

/-- An enhancement capability whose calls always resolve with an image. -/
def okOutcome : VideoFrame → Except JsError (Option String) :=
  fun _ => Except.ok (some "data:image/png;base64,NEW")

/-- A keeper frame with an analysis and an enhanced image. -/
def keeperFrame : VideoFrame :=
  { id := "k1", timestamp := 2, imageUrl := "data:image/jpeg;base64,AAA",
    analysis := some goodAnalysis, isSelected := true, isProcessing := false,
    enhancedUrl := some "data:image/png;base64,BBB", isEnhancing := false,
    appliedEnhancements := ["Restore (Standard)"] }

/-! Store lemmas shared by several claims. -/

theorem findById_map (g : VideoFrame → VideoFrame) (hg : ∀ f, (g f).id = f.id)
    (frames : List VideoFrame) (i : String) :
    findById (frames.map g) i = (findById frames i).map g := by
  induction frames with
  | nil => rfl
  | cons f fs ih =>
    simp only [findById, List.map_cons, List.find?_cons] at ih ⊢
    rw [hg f]
    cases h : (f.id == i) <;> simp [h, ih]

theorem findById_updateById_self (frames : List VideoFrame) (i : String)
    (p : VideoFrame → VideoFrame) (hp : ∀ f, (p f).id = f.id) :
    findById (updateById frames i p) i = (findById frames i).map p := by
  have hg : ∀ f : VideoFrame, ((fun f => if f.id = i then p f else f) f).id = f.id := by
    intro f
    by_cases h : f.id = i <;> simp [h, hp]
  rw [updateById, findById_map _ hg]
  cases hfind : findById frames i with
  | none => rfl
  | some f0 =>
    simp only [findById] at hfind
    have hpred := List.find?_some hfind
    have heq : f0.id = i := by simpa using hpred
    simp [heq]

theorem findById_updateById_ne (frames : List VideoFrame) (i j : String)
    (hne : i ≠ j) (p : VideoFrame → VideoFrame) (hp : ∀ f, (p f).id = f.id) :
    findById (updateById frames j p) i = findById frames i := by
  have hg : ∀ f : VideoFrame, ((fun f => if f.id = j then p f else f) f).id = f.id := by
    intro f
    by_cases h : f.id = j <;> simp [h, hp]
  rw [updateById, findById_map _ hg]
  cases hfind : findById frames i with
  | none => rfl
  | some f0 =>
    simp only [findById] at hfind
    have hpred := List.find?_some hfind
    have heq : f0.id = i := by simpa using hpred
    simp [heq, hne]

theorem findById_of_nodup (frames : List VideoFrame)
    (hnodup : (frames.map (fun f => f.id)).Nodup) (f0 : VideoFrame)
    (hmem : f0 ∈ frames) :
    findById frames f0.id = some f0 := by
  induction frames with
  | nil => cases hmem
  | cons f fs ih =>
    simp only [List.map_cons, List.nodup_cons] at hnodup
    rcases List.mem_cons.mp hmem with rfl | hmem
    · simp [findById, List.find?_cons]
    · have hne : (f.id == f0.id) = false := by
        simp only [beq_eq_false_iff_ne, ne_eq]
        intro h
        exact hnodup.1 (h ▸ List.mem_map_of_mem (fun f => f.id) hmem)
      simp only [findById, List.find?_cons, hne]
      exact ih hnodup.2 hmem

theorem updateById_of_absent (frames : List VideoFrame) (i : String)
    (p : VideoFrame → VideoFrame) (h : ∀ f ∈ frames, f.id ≠ i) :
    updateById frames i p = frames := by
  induction frames with
  | nil => rfl
  | cons f fs ih =>
    have h1 : f.id ≠ i := h f (List.mem_cons_self f fs)
    have h2 : ∀ g ∈ fs, g.id ≠ i := fun g hg => h g (List.mem_cons_of_mem f hg)
    simp only [updateById, List.map_cons, if_neg h1]
    exact congrArg (f :: ·) (ih h2)

/-! Claim C1. -/

/-- C1 counterexample: a frame the user selected while its analysis was
pending receives a successful Good verdict, and `processFrameAI` forces
`isSelected` back to false instead of keeping the prior value, refuting
the claim that on Good or Fair the flag keeps whatever value it had. -/
theorem c1_counterexample :
    pendingFrame.isSelected = true ∧
    (processFrameAI capGood pendingFrame [pendingFrame]).map (fun f => f.isSelected) =
      [false] := by
  decide

/-- C1 (amended): upon a resolved verdict `r`, `processFrameAI` replaces the
frame's record so that `isSelected` equals `decide (r.quality = Excellent)`
regardless of its prior value — it is true iff the quality is Excellent, and
is forced to false on a Good or Fair verdict; the degraded fallback (quality
Fair) therefore never yields `isSelected = true`. -/
theorem c1_amended (cap : Nat → CapOutcome) (fr f0 : VideoFrame)
    (frames : List VideoFrame) (r : AIAnalysis)
    (hok : (analyzeFrameWithGemini cap).1 = Except.ok r)
    (hfind : findById frames fr.id = some f0) :
    findById (processFrameAI cap fr frames) fr.id =
      some { f0 with analysis := some r, isProcessing := false,
                     isSelected := decide (r.quality = some "Excellent") } ∧
    (decide (r.quality = some "Excellent") = true ↔ r.quality = some "Excellent") ∧
    (r = fallbackAnalysis → decide (r.quality = some "Excellent") = false) := by
  refine ⟨?_, by simp, ?_⟩
  · have step : processFrameAI cap fr frames =
        updateById frames fr.id (analyzeOkPatch r) := by
      unfold processFrameAI
      rw [hok]
    rw [step, findById_updateById_self frames fr.id (analyzeOkPatch r) (fun f => rfl),
        hfind]
    rfl
  · rintro rfl
    decide

/-- C1 witness: the amended statement applied to a concrete store holding the
selected pending frame and a capability answering with a Good verdict. -/
theorem c1_witness :
    findById (processFrameAI capGood pendingFrame [pendingFrame]) pendingFrame.id =
      some { pendingFrame with
               analysis := some goodAnalysis, isProcessing := false,
               isSelected := decide (goodAnalysis.quality = some "Excellent") } :=
  (c1_amended capGood pendingFrame pendingFrame [pendingFrame] goodAnalysis
    (by decide) (by decide)).1

/-! Claim C2. -/

/-- C2 counterexample: a "no image produced" (null) enhancement result is not
treated as a failure: the success path drops the frame's prior
`enhancedImage`, appends to `appliedEnhancements` and forces the analysis
quality to Excellent, refuting the claim that such a result leaves them
untouched. -/
theorem c2_counterexample :
    enhancedFrame.enhancedUrl = some "data:image/png;base64,OLD" ∧
    enhancedFrame.appliedEnhancements = [] ∧
    (handleEnhanceSelection (Except.ok none) enhancedFrame ["Restore (Standard)"]
        [enhancedFrame]).map
      (fun f => (f.enhancedUrl, f.appliedEnhancements,
                 f.analysis.map (fun a => a.quality))) =
      [(none, ["Restore (Standard)"], some (some "Excellent"))] := by
  decide

/-- C2 (amended): when an enhancement call fails by throwing, only
`isEnhancing` is cleared — the prior `enhancedImage`, `appliedEnhancements`
and `analysis` are untouched — both in `handleEnhanceSelection` and in one
step of the batch loop; a null "no image produced" result instead takes the
success path (see the counterexample). -/
theorem c2_amended (e : JsError) (fr f0 : VideoFrame) (types : List String)
    (etype : String) (outc : VideoFrame → Except JsError (Option String))
    (frames : List VideoFrame)
    (hfind : findById frames fr.id = some f0) :
    findById (handleEnhanceSelection (Except.error e) fr types frames) fr.id =
      some { f0 with isEnhancing := false } ∧
    (fr.analysis ≠ none → outc fr = Except.error e →
      batchLoop etype outc [fr] frames =
        updateById frames fr.id clearEnhancingPatch) := by
  constructor
  · show findById (updateById (updateById frames fr.id setEnhancingPatch) fr.id
        clearEnhancingPatch) fr.id = some { f0 with isEnhancing := false }
    rw [findById_updateById_self _ fr.id clearEnhancingPatch (fun f => rfl),
        findById_updateById_self frames fr.id setEnhancingPatch (fun f => rfl), hfind]
    rfl
  · intro hana herr
    cases h : fr.analysis with
    | none => exact absurd h hana
    | some a => simp only [batchLoop, h, herr]

/-- C2 witness: the amended statement applied to a concrete store holding an
analyzed frame with a prior enhanced image, under a thrown 429 error. -/
theorem c2_witness :
    findById (handleEnhanceSelection (Except.error err429) enhancedFrame []
        [enhancedFrame]) enhancedFrame.id =
      some { enhancedFrame with isEnhancing := false } ∧
    batchLoop "Cinematic Lighting" (fun _ => Except.error err429) [enhancedFrame]
        [enhancedFrame] =
      updateById [enhancedFrame] enhancedFrame.id clearEnhancingPatch := by
  have h := c2_amended err429 enhancedFrame enhancedFrame [] "Cinematic Lighting"
    (fun _ => Except.error err429) [enhancedFrame] (by decide)
  exact ⟨h.1, h.2 (by decide) rfl⟩

/-! Claim C3. -/

/-- C3 (code bug): the per-attempt handler inside `analyzeFrameWithGemini`
re-throws only `status === 429`, so a 503 service-overload failure never
reaches `callWithRetry`: the call resolves immediately with the degraded
fallback and zero backoff waits, contrary to the claim (and to
`callWithRetry`'s own 503 classification).  For a 429 rate-limit signal the
claimed behaviour does hold: two failures then success yield the successful
verdict with exactly the waits 2000 ms and 4000 ms. -/
theorem c3_code_bug :
    analyzeFrameWithGemini cap503Twice = (Except.ok fallbackAnalysis, []) ∧
    analyzeFrameWithGemini cap429Twice = (Except.ok goodAnalysis, [2000, 4000]) := by
  decide

/-! Claim C4. -/

/-- C4 (code bug): when every attempt fails with 429, `callWithRetry`
performs the full backoff schedule (2000, 4000, 8000 ms) and then throws;
`processFrameAI`'s catch branch only clears `isProcessing` and leaves
`analysis = null` forever, instead of resolving the frame to the degraded
fallback as the claim states. -/
theorem c4_code_bug :
    (analyzeFrameWithGemini cap429Always).2 = [2000, 4000, 8000] ∧
    processFrameAI cap429Always pendingFrame [pendingFrame] =
      [{ pendingFrame with isProcessing := false }] ∧
    ({ pendingFrame with isProcessing := false }).analysis = none := by
  decide

/-! Claim C5. -/

/-- C5 counterexample: a parseable response missing `quality` is not resolved
to the degraded fallback: the unvalidated cast leaks an analysis record with
`quality` absent, `compositionScore` defaulted to 5 and `technicalAdvice`
kept, refuting the claim that the result is exactly the fallback (the
"no retry" half does hold: the wait list is empty). -/
theorem c5_counterexample :
    (analyzeFrameWithGemini capMissingQuality).2 = [] ∧
    (analyzeFrameWithGemini capMissingQuality).1 ≠ Except.ok fallbackAnalysis ∧
    (analyzeFrameWithGemini capMissingQuality).1 =
      Except.ok { quality := none, qualityReason := some "looks fine", people := [],
                  shotType := some "Candid", tags := ["beach"], compositionScore := 5,
                  technicalAdvice := "Fix focus.", subjectId := none } := by
  decide

/-- C5 (amended): for every parseable response missing `quality`, no retry is
attempted and the result is a non-fallback record whose `quality` is absent,
with `people`/`tags` defaulted to empty, `compositionScore` defaulted by
`|| 5` and `technicalAdvice` defaulted by `|| "No advice available"`; the
degraded fallback is produced only by thrown non-429 errors, empty
responses, or unparseable JSON, never by a missing field. -/
theorem c5_amended (j : RawAnalysis) (hq : j.quality = none) :
    (analyzeFrameWithGemini (fun _ => CapOutcome.json j)).2 = [] ∧
    ∃ r, (analyzeFrameWithGemini (fun _ => CapOutcome.json j)).1 = Except.ok r ∧
      r.quality = none ∧ r ≠ fallbackAnalysis ∧
      r.people = j.people.getD [] ∧ r.tags = j.tags.getD [] ∧
      r.compositionScore = jsOrNum j.compositionScore 5 ∧
      r.technicalAdvice = jsOrStr j.technicalAdvice "No advice available" := by
  refine ⟨rfl, _, rfl, hq, ?_, rfl, rfl, rfl, rfl⟩
  intro hcon
  have hbad := congrArg AIAnalysis.quality hcon
  rw [show (fallbackAnalysis).quality = some "Fair" from rfl] at hbad
  simp only at hbad
  rw [hq] at hbad
  exact Option.noConfusion hbad

/-- C5 witness: the amended statement applied to the concrete response
`missingQualityJson`. -/
theorem c5_witness :
    (analyzeFrameWithGemini (fun _ => CapOutcome.json missingQualityJson)).2 = [] :=
  (c5_amended missingQualityJson rfl).1

/-! Claim C7: sampling loop lemmas. -/

theorem sampleLoop_head (en step u : ℚ) (fuel : Nat) :
    ∀ b ∈ (sampleLoop en step u fuel).head?, b = u := by
  cases fuel with
  | zero => intro b hb; cases hb
  | succ n =>
    intro b hb
    unfold sampleLoop at hb
    by_cases h : u < en
    · rw [if_pos h] at hb
      simp only [List.head?_cons, Option.mem_def, Option.some.injEq] at hb
      exact hb.symm
    · rw [if_neg h] at hb
      cases hb

theorem sampleLoop_mem (en step : ℚ) (hstep : 0 ≤ step) :
    ∀ (fuel : Nat) (t x : ℚ), x ∈ sampleLoop en step t fuel → t ≤ x ∧ x < en := by
  intro fuel
  induction fuel with
  | zero => intro t x hx; cases hx
  | succ n ih =>
    intro t x hx
    unfold sampleLoop at hx
    by_cases h : t < en
    · rw [if_pos h] at hx
      rcases List.mem_cons.mp hx with rfl | hx
      · exact ⟨le_refl x, h⟩
      · have hrec := ih (t + step) x hx
        exact ⟨by linarith [hrec.1], hrec.2⟩
    · rw [if_neg h] at hx
      cases hx

theorem sampleLoop_chain (en step : ℚ) :
    ∀ (fuel : Nat) (t : ℚ),
      List.Chain' (fun a b => b = a + step) (sampleLoop en step t fuel) := by
  intro fuel
  induction fuel with
  | zero => intro t; exact List.chain'_nil
  | succ n ih =>
    intro t
    unfold sampleLoop
    by_cases h : t < en
    · rw [if_pos h, List.chain'_cons']
      exact ⟨fun b hb => sampleLoop_head en step (t + step) n b hb, ih (t + step)⟩
    · rw [if_neg h]
      exact List.chain'_nil

theorem sampleLoop_length (en step : ℚ) :
    ∀ (fuel : Nat) (t : ℚ), (sampleLoop en step t fuel).length ≤ fuel := by
  intro fuel
  induction fuel with
  | zero => intro t; exact Nat.le_refl 0
  | succ n ih =>
    intro t
    unfold sampleLoop
    by_cases h : t < en
    · rw [if_pos h]
      simpa using Nat.succ_le_succ (ih (t + step))
    · rw [if_neg h]
      exact Nat.zero_le _

theorem sampleLoop_empty (en step t : ℚ) (fuel : Nat) (h : en ≤ t) :
    sampleLoop en step t fuel = [] := by
  cases fuel with
  | zero => rfl
  | succ n =>
    unfold sampleLoop
    rw [if_neg (not_lt.mpr h)]

/-- C7: for every duration and every ScanSettings, all sampled timestamps
lie within the resolved range `[startTime, endTime)`, consecutive
timestamps differ by exactly `Math.max(1, interval)` (which equals
`max 1 interval`), at most 50 frames are produced, and a degenerate range
with `endTime ≤ startTime` yields zero frames. -/
theorem c7_confirmed (duration : ℚ) (s : ScanSettings) :
    (∀ x ∈ sampleTimestamps duration s,
        (resolveRange s.range duration).1 ≤ x ∧
        x < (resolveRange s.range duration).2) ∧
    List.Chain' (fun a b => b = a + jsMax 1 s.interval) (sampleTimestamps duration s) ∧
    jsMax 1 s.interval = max 1 s.interval ∧
    (sampleTimestamps duration s).length ≤ 50 ∧
    ((resolveRange s.range duration).2 ≤ (resolveRange s.range duration).1 →
      sampleTimestamps duration s = []) := by
  have hstep : (0 : ℚ) ≤ jsMax 1 s.interval := by
    unfold jsMax
    by_cases h : (1 : ℚ) < s.interval
    · rw [if_pos h]; linarith
    · rw [if_neg h]; norm_num
  have hmax : jsMax 1 s.interval = max 1 s.interval := by
    unfold jsMax
    by_cases h : (1 : ℚ) < s.interval
    · rw [if_pos h, max_eq_right (le_of_lt h)]
    · rw [if_neg h, max_eq_left (not_lt.mp h)]
  refine ⟨?_, sampleLoop_chain _ _ _ _, hmax, sampleLoop_length _ _ _ _, ?_⟩
  · intro x hx
    exact sampleLoop_mem _ _ hstep 50 _ x hx
  · intro h
    exact sampleLoop_empty _ _ _ _ h

/-- Concrete evaluation of the sampler: a 10-second full-range scan at
interval 5 captures exactly the frames at t = 0 and t = 5. -/
theorem sample_full_ten_five : sampleTimestamps 10 ⟨"full", 5⟩ = [0, 5] := by
  have hr1 : (resolveRange "full" 10).1 = 0 := rfl
  have hr2 : (resolveRange "full" 10).2 = 10 := rfl
  have hm : jsMax 1 5 = 5 := by norm_num [jsMax]
  simp only [sampleTimestamps, hr1, hr2, hm]
  rw [show (50 : Nat) = 49 + 1 from rfl, sampleLoop]
  norm_num
  rw [show (49 : Nat) = 48 + 1 from rfl, sampleLoop]
  norm_num
  rw [show (48 : Nat) = 47 + 1 from rfl, sampleLoop]
  norm_num

/-- C7 witness: the bounds applied to the sampled timestamp 5 of a
10-second full scan at interval 5. -/
theorem c7_witness :
    (resolveRange "full" 10).1 ≤ 5 ∧ (5 : ℚ) < (resolveRange "full" 10).2 :=
  (c7_confirmed 10 ⟨"full", 5⟩).1 5 (by rw [sample_full_ten_five]; simp)

/-! Claim C8. -/

/-- C8 counterexample: a keeper's manifest entry carries the keys `score`
and `advice`, not `compositionScore` and `technicalAdvice`, so an entry does
not contain exactly the field set the claim lists. -/
theorem c8_counterexample :
    (exportProjectToZip [keeperFrame]).manifest.map (fun m => m.map Prod.fst) =
      [["id", "timestamp", "quality", "score", "tags", "advice", "people",
        "shotType", "isEnhanced"]] ∧
    (["id", "timestamp", "quality", "score", "tags", "advice", "people",
      "shotType", "isEnhanced"] : List String) ≠
      ["id", "timestamp", "quality", "compositionScore", "tags",
       "technicalAdvice", "people", "shotType", "isEnhanced"] := by
  decide

/-- C8 (amended): exporting produces one manifest entry and one image file
per keeper; each entry holds the keys `id, timestamp, quality, score, tags,
advice, people, shotType, isEnhanced` (where `score` carries the
compositionScore and `advice` the technicalAdvice); each file is named
`frame_<timestamp to 2 decimals>s_<quality-or-"ungraded">.png` and its
payload is the enhanced image when present (and non-empty), else the
original image. -/
theorem c8_amended (frames : List VideoFrame) :
    (exportProjectToZip frames).manifest =
      (frames.filter (fun f => f.isSelected)).map manifestEntry ∧
    (exportProjectToZip frames).files =
      (frames.filter (fun f => f.isSelected)).map
        (fun f => (exportFileName f, exportFilePayload f)) ∧
    (∀ m ∈ (exportProjectToZip frames).manifest,
      m.map Prod.fst =
        ["id", "timestamp", "quality", "score", "tags", "advice", "people",
         "shotType", "isEnhanced"]) ∧
    (∀ f ∈ frames.filter (fun f => f.isSelected),
      (f.enhancedUrl = none → exportFilePayload f = stripDataUrlPrefix f.imageUrl) ∧
      (∀ u, f.enhancedUrl = some u → u ≠ "" →
        exportFilePayload f = stripDataUrlPrefix u)) := by
  refine ⟨rfl, rfl, ?_, ?_⟩
  · intro m hm
    have hm2 : m ∈ (frames.filter (fun f => f.isSelected)).map manifestEntry := hm
    rcases List.mem_map.mp hm2 with ⟨f, _, rfl⟩
    rfl
  · intro f _
    constructor
    · intro h
      unfold exportFilePayload
      rw [h]
      simp [jsOrStr]
    · intro u hu hne
      unfold exportFilePayload
      rw [hu]
      simp [jsOrStr, hne]

/-- C8 witness: the key-name and payload facts applied to the concrete
keeper `keeperFrame`. -/
theorem c8_witness :
    (manifestEntry keeperFrame).map Prod.fst =
      ["id", "timestamp", "quality", "score", "tags", "advice", "people",
       "shotType", "isEnhanced"] ∧
    exportFilePayload keeperFrame = stripDataUrlPrefix "data:image/png;base64,BBB" := by
  have h := c8_amended [keeperFrame]
  refine ⟨h.2.2.1 (manifestEntry keeperFrame) (by decide), ?_⟩
  exact ((h.2.2.2 keeperFrame (by decide)).2 "data:image/png;base64,BBB" rfl (by decide))

/-! Claim C6: batch-loop lemmas. -/

theorem eq_of_id_eq_of_nodup (frames : List VideoFrame)
    (hnodup : (frames.map (fun f => f.id)).Nodup) (a b : VideoFrame)
    (ha : a ∈ frames) (hb : b ∈ frames) (hid : a.id = b.id) : a = b :=
  List.inj_on_of_nodup_map hnodup ha hb hid

theorem batchLoop_findById_stable (etype : String)
    (outc : VideoFrame → Except JsError (Option String)) :
    ∀ (rest frames : List VideoFrame) (i : String),
      (∀ g ∈ rest, g.analysis ≠ none → g.id ≠ i) →
      findById (batchLoop etype outc rest frames) i = findById frames i := by
  intro rest
  induction rest with
  | nil => intro frames i _; rfl
  | cons t rs ih =>
    intro frames i h
    have htail : ∀ g ∈ rs, g.analysis ≠ none → g.id ≠ i :=
      fun g hg => h g (List.mem_cons_of_mem t hg)
    cases ht : t.analysis with
    | none =>
      simp only [batchLoop, ht]
      exact ih frames i htail
    | some a =>
      have hne : t.id ≠ i := h t (List.mem_cons_self t rs) (by simp [ht])
      cases ho : outc t with
      | ok res =>
        simp only [batchLoop, ht, ho]
        rw [ih _ i htail]
        exact findById_updateById_ne frames i t.id (fun hc => hne hc.symm)
          (batchSuccessPatch res etype) (fun f => rfl)
      | error e =>
        simp only [batchLoop, ht, ho]
        rw [ih _ i htail]
        exact findById_updateById_ne frames i t.id (fun hc => hne hc.symm)
          clearEnhancingPatch (fun f => rfl)

theorem batchLoop_clears (etype : String)
    (outc : VideoFrame → Except JsError (Option String)) :
    ∀ (rest frames : List VideoFrame) (f0 fc : VideoFrame),
      f0 ∈ rest → f0.analysis ≠ none →
      (rest.map (fun g => g.id)).Nodup →
      findById frames f0.id = some fc →
      ∃ f1, findById (batchLoop etype outc rest frames) f0.id = some f1 ∧
        f1.isEnhancing = false := by
  intro rest
  induction rest with
  | nil => intro frames f0 fc hmem; cases hmem
  | cons t rs ih =>
    intro frames f0 fc hmem hana hnodup hfind
    simp only [List.map_cons, List.nodup_cons] at hnodup
    rcases List.mem_cons.mp hmem with rfl | hmem
    · cases ht : f0.analysis with
      | none => exact absurd ht hana
      | some a =>
        have hrs : ∀ g ∈ rs, g.analysis ≠ none → g.id ≠ f0.id := by
          intro g hg _ hceq
          exact hnodup.1 (hceq ▸ List.mem_map_of_mem (fun x => x.id) hg)
        cases ho : outc f0 with
        | ok res =>
          simp only [batchLoop, ht, ho]
          rw [batchLoop_findById_stable etype outc rs _ f0.id hrs,
              findById_updateById_self frames f0.id (batchSuccessPatch res etype)
                (fun f => rfl), hfind]
          exact ⟨_, rfl, rfl⟩
        | error e =>
          simp only [batchLoop, ht, ho]
          rw [batchLoop_findById_stable etype outc rs _ f0.id hrs,
              findById_updateById_self frames f0.id clearEnhancingPatch
                (fun f => rfl), hfind]
          exact ⟨_, rfl, rfl⟩
    · have hne : t.id ≠ f0.id := by
        intro hc
        exact hnodup.1 (hc ▸ List.mem_map_of_mem (fun x => x.id) hmem)
      cases ht : t.analysis with
      | none =>
        simp only [batchLoop, ht]
        exact ih frames f0 fc hmem hana hnodup.2 hfind
      | some a =>
        cases ho : outc t with
        | ok res =>
          simp only [batchLoop, ht, ho]
          refine ih _ f0 fc hmem hana hnodup.2 ?_
          rw [findById_updateById_ne frames f0.id t.id (fun hc => hne hc.symm)
            (batchSuccessPatch res etype) (fun f => rfl)]
          exact hfind
        | error e =>
          simp only [batchLoop, ht, ho]
          refine ih _ f0 fc hmem hana hnodup.2 ?_
          rw [findById_updateById_ne frames f0.id t.id (fun hc => hne hc.symm)
            clearEnhancingPatch (fun f => rfl)]
          exact hfind

/-- C6 counterexample: a selected frame without an analysis is marked
`isEnhancing = true` at batch start, then skipped by the loop, and is still
`isEnhancing = true` after the batch completes — refuting the claim that the
flag is cleared for every targeted frame by batch completion. -/
theorem c6_counterexample :
    (handleBatchEnhance "Cinematic Lighting" okOutcome [pendingFrame]).map
      (fun f => f.isEnhancing) = [true] := by
  decide

/-- C6 (amended): in a batch over a store with pairwise-distinct frame ids,
every targeted (selected) frame is marked `isEnhancing = true` at batch
start; by batch completion every targeted frame that had an analysis has
`isEnhancing = false` (its own call resolved, successfully or not), while a
targeted frame lacking an analysis is skipped and remains exactly its
batch-start record, with `isEnhancing` still true. -/
theorem c6_amended (etype : String)
    (outc : VideoFrame → Except JsError (Option String))
    (frames : List VideoFrame) (f0 : VideoFrame)
    (hnodup : (frames.map (fun f => f.id)).Nodup)
    (hmem : f0 ∈ frames) (hsel : f0.isSelected = true) :
    (findById (batchStart frames) f0.id = some (setEnhancingPatch f0) ∧
      (setEnhancingPatch f0).isEnhancing = true) ∧
    (f0.analysis = none →
      findById (handleBatchEnhance etype outc frames) f0.id =
        some (setEnhancingPatch f0)) ∧
    (f0.analysis ≠ none →
      ∃ f1, findById (handleBatchEnhance etype outc frames) f0.id = some f1 ∧
        f1.isEnhancing = false) := by
  have hg : ∀ f : VideoFrame,
      ((fun f => if ((batchTargets frames).map (fun g => g.id)).contains f.id
                 then setEnhancingPatch f else f) f).id = f.id := by
    intro f
    show (if ((batchTargets frames).map (fun g => g.id)).contains f.id = true
        then setEnhancingPatch f else f).id = f.id
    by_cases h : ((batchTargets frames).map (fun g => g.id)).contains f.id = true
    · rw [if_pos h]; rfl
    · rw [if_neg h]
  have hmemT : f0 ∈ batchTargets frames := by
    unfold batchTargets
    exact List.mem_filter.mpr ⟨hmem, hsel⟩
  have hcontains : ((batchTargets frames).map (fun g => g.id)).contains f0.id = true :=
    List.elem_eq_true_of_mem (List.mem_map_of_mem (fun g => g.id) hmemT)
  have hstart : findById (batchStart frames) f0.id = some (setEnhancingPatch f0) := by
    unfold batchStart
    rw [findById_map _ hg, findById_of_nodup frames hnodup f0 hmem]
    show some (if ((batchTargets frames).map (fun g => g.id)).contains f0.id = true
        then setEnhancingPatch f0 else f0) = some (setEnhancingPatch f0)
    rw [if_pos hcontains]
  refine ⟨⟨hstart, rfl⟩, ?_, ?_⟩
  · intro hana
    have hstable : ∀ g ∈ batchTargets frames, g.analysis ≠ none → g.id ≠ f0.id := by
      intro g hgm hga hid
      have hsub : g ∈ frames := List.mem_of_mem_filter hgm
      have : g = f0 := eq_of_id_eq_of_nodup frames hnodup g f0 hsub hmem hid
      rw [this, hana] at hga
      exact hga rfl
    unfold handleBatchEnhance
    rw [batchLoop_findById_stable etype outc (batchTargets frames)
      (batchStart frames) f0.id hstable]
    exact hstart
  · intro hana
    have htnodup : ((batchTargets frames).map (fun g => g.id)).Nodup :=
      ((List.filter_sublist frames).map (fun g => g.id)).nodup hnodup
    exact batchLoop_clears etype outc (batchTargets frames) (batchStart frames)
      f0 (setEnhancingPatch f0) hmemT hana htnodup hstart

/-- C6 witness: the amended statement applied to a store holding one
selected, analyzed frame under a succeeding enhancement capability; its
`isEnhancing` flag is cleared by batch completion. -/
theorem c6_witness :
    ∃ f1, findById (handleBatchEnhance "Cinematic Lighting" okOutcome
        [enhancedFrame]) enhancedFrame.id = some f1 ∧ f1.isEnhancing = false :=
  (c6_amended "Cinematic Lighting" okOutcome [enhancedFrame] enhancedFrame
    (by decide) (by decide) rfl).2.2 (by decide)

/-! Claim C9. -/

/-- C9: an update addressed to a frame id that is absent from the store is a
no-op — `updateFrame`-style patches, a late-resolving analysis
(`processFrameAI`) and a late-resolving enhancement
(`handleEnhanceSelection`) all leave the store exactly unchanged, records
and order included. -/
theorem c9_confirmed (frames : List VideoFrame) (p : VideoFrame → VideoFrame)
    (cap : Nat → CapOutcome) (outcome : Except JsError (Option String))
    (types : List String) (fr : VideoFrame)
    (habsent : ∀ f ∈ frames, f.id ≠ fr.id) :
    updateById frames fr.id p = frames ∧
    processFrameAI cap fr frames = frames ∧
    handleEnhanceSelection outcome fr types frames = frames := by
  refine ⟨updateById_of_absent _ _ _ habsent, ?_, ?_⟩
  · unfold processFrameAI
    cases hres : (analyzeFrameWithGemini cap).1 with
    | ok r => simp only; exact updateById_of_absent _ _ _ habsent
    | error e => simp only; exact updateById_of_absent _ _ _ habsent
  · unfold handleEnhanceSelection
    cases outcome with
    | ok res =>
      simp only
      rw [updateById_of_absent _ _ _ habsent]
      exact updateById_of_absent _ _ _ habsent
    | error e =>
      simp only
      rw [updateById_of_absent _ _ _ habsent]
      exact updateById_of_absent _ _ _ habsent

/-- C9 witness: a late analysis result for the discarded id "f1" leaves a
store that only contains the frame "f2" unchanged. -/
theorem c9_witness :
    processFrameAI capGood pendingFrame [enhancedFrame] = [enhancedFrame] :=
  (c9_confirmed [enhancedFrame] id capGood (Except.ok none) [] pendingFrame
    (by decide)).2.1

end FramePerfect
